import Mathlib

/-!
Verification development for the CAE-Automation-Portfolio core:
the sweep controller / threshold analyzer of
`Spall Fracture Modeling System/spall_fracture_system.py` and the
data-reduction engine / report aggregator of `postprocessing_system.py`.
Python floats are modelled as rationals; Python dictionaries as
association lists with first-match lookup and in-place insertion;
raised exceptions as `Except.error`.
-/

namespace SpallFracture

/-- Metrics dictionary returned for one successful simulation run by
the `_create_model_for_velocity` / `_run_calculation` / `_extract_results`
call chain (spall_fracture_system.py lines 496-509). -/
structure OracleMetrics where
  max_stress : ℚ
  max_strain : ℚ
  fracture_time : ℚ
  fracture_occurred : Bool
  job_name : String
deriving Repr, DecidableEq

/-- One per-velocity outcome dictionary as appended by `run_analysis`:
a completed record carries the extracted metrics (lines 501-509), a
failed record carries only the velocity and the error message
(lines 167-171). -/
inductive RunOutcome where
  | completed (velocity max_stress max_strain fracture_time : ℚ)
      (fracture_occurred : Bool) (job_name : String)
  | failed (velocity : ℚ) (errorMessage : String)
deriving Repr, DecidableEq

/-- Field access `r['velocity']`, present in both record shapes. -/
def RunOutcome.velocity : RunOutcome → ℚ
  | .completed v _ _ _ _ _ => v
  | .failed v _ => v

/-- Status test `r['status'] == 'completed'`. -/
def RunOutcome.isCompleted : RunOutcome → Bool
  | .completed _ _ _ _ _ _ => true
  | .failed _ _ => false

/-- Field access `r['fracture_occurred']`; the code only ever reads it
on completed records, so the value on failed records is junk. -/
def RunOutcome.fractureOccurred : RunOutcome → Bool
  | .completed _ _ _ _ f _ => f
  | .failed _ _ => false

/-- Field access `r['max_stress']`; the code only ever reads it on
completed records, so the value on failed records is junk. -/
def RunOutcome.maxStress : RunOutcome → ℚ
  | .completed _ s _ _ _ _ => s
  | .failed _ _ => 0

/-- One iteration of the sweep loop body of `run_analysis`
(lines 146-171): the oracle argument stands for the composite
model-building / job-running / result-extraction collaborator call; on
success a completed record is built from the returned metrics, and on
any signalled failure a failed record carrying the failure's message. -/
def runOne (oracle : ℚ → Except String OracleMetrics) (v : ℚ) : RunOutcome :=
  match oracle v with
  | .ok m => .completed v m.max_stress m.max_strain m.fracture_time
      m.fracture_occurred m.job_name
  | .error e => .failed v e

/-- The record list accumulated by the sweep loop of `run_analysis`
(lines 144-172): one record per requested velocity, in input order. -/
def runAnalysis (oracle : ℚ → Except String OracleMetrics)
    (velocities : List ℚ) : List RunOutcome :=
  velocities.map (runOne oracle)

/-- Python `int()` on a rational: truncation toward zero. -/
def pyInt (q : ℚ) : ℤ :=
  if q < 0 then -((q.num.natAbs / q.den : ℕ) : ℤ)
  else ((q.num.natAbs / q.den : ℕ) : ℤ)

/-- Directory used by `_save_velocity_results` (line 513): the result of
`os.path.join` of the output directory with the formatted name
`velocity_` followed by `int(velocity)`. -/
def velocityDirName (output_dir : String) (v : ℚ) : String :=
  output_dir ++ "/velocity_" ++ toString (pyInt v)

/-- The sweep loop together with its persistence side effect: the second
component logs, in order, each directory / record pair handed to
`_save_velocity_results`.  The save call sits inside the `try` block
right after a successful record is appended (lines 158-161), so failed
records are never handed to the persistence collaborator. -/
def runAnalysisWithSaves (oracle : ℚ → Except String OracleMetrics)
    (output_dir : String) :
    List ℚ → List RunOutcome × List (String × RunOutcome)
  | [] => ([], [])
  | v :: rest =>
    let tail := runAnalysisWithSaves oracle output_dir rest
    match oracle v with
    | .ok m =>
        let r := RunOutcome.completed v m.max_stress m.max_strain
          m.fracture_time m.fracture_occurred m.job_name
        (r :: tail.1, (velocityDirName output_dir v, r) :: tail.2)
    | .error e => (.failed v e :: tail.1, tail.2)

/-- The summary dictionary built by `SpallFractureResults.analyze`
(lines 570-581). -/
structure AnalysisSummary where
  total_velocities : ℕ
  successful_calculations : ℕ
  failed_calculations : ℕ
  critical_velocity : Option ℚ
  fracture_velocities : List ℚ
  no_fracture_velocities : List ℚ
  max_stress_min : ℚ
  max_stress_max : ℚ
deriving Repr, DecidableEq

/-- Python `min(l) if l else None` (line 568); on a non-empty list
Python's `min` is a left fold of binary `min` over the elements. -/
def pyMin : List ℚ → Option ℚ
  | [] => none
  | x :: xs => some (xs.foldl min x)

/-- Body of `SpallFractureResults.analyze` (lines 559-583), abstracted
over the already-computed `successful_results` list (the last
argument), which `analyze` passes as the completed-status filter of the
record list.  When no successful results exist the method returns the
error dictionary of line 562, modelled as `Except.error` of its
message. -/
def analyzeAux (velocities : List ℚ) (results : List RunOutcome) :
    List RunOutcome → Except String AnalysisSummary
  | [] => .error "Нет успешных результатов для анализа"
  | s :: ss =>
      let successful := s :: ss
      let fracture_velocities :=
        (successful.filter RunOutcome.fractureOccurred).map RunOutcome.velocity
      let no_fracture_velocities :=
        (successful.filter (fun r => !r.fractureOccurred)).map RunOutcome.velocity
      .ok
        { total_velocities := velocities.length
          successful_calculations := successful.length
          failed_calculations := results.length - successful.length
          critical_velocity := pyMin fracture_velocities
          fracture_velocities := fracture_velocities
          no_fracture_velocities := no_fracture_velocities
          max_stress_min := (ss.map RunOutcome.maxStress).foldl min s.maxStress
          max_stress_max := (ss.map RunOutcome.maxStress).foldl max s.maxStress }

/-- `SpallFractureResults.analyze` (lines 557-583).  The enclosing
results object holds both the requested velocity list and the record
list (lines 550-555), so both are arguments here. -/
def analyze (velocities : List ℚ) (results : List RunOutcome) :
    Except String AnalysisSummary :=
  analyzeAux velocities results (results.filter RunOutcome.isCompleted)

/-- Velocities of the completed records whose `fracture_occurred` flag
is set — the `fracture_velocities` comprehension of line 565. -/
def fractureVelocities (records : List RunOutcome) : List ℚ :=
  ((records.filter RunOutcome.isCompleted).filter
    RunOutcome.fractureOccurred).map RunOutcome.velocity

/-- Concrete simulation oracle for evaluating the sweep on the example
scenario of the repository: velocity 150 fails with a mesh generation
error, the other velocities complete, and fracture occurs above
200 m/s (the stub criterion of `_extract_results`, line 507). -/
def sampleOracle : ℚ → Except String OracleMetrics := fun v =>
  if v == 150 then .error "mesh generation error"
  else .ok ⟨100 + v / 10, 1/100, 120, decide (v > 200), "SpallJob"⟩

end SpallFracture

namespace PostProcessing

/-- First-match association lookup: Python dictionary membership test
`k in d` together with access `d[k]`. -/
def pyLookup [BEq κ] (m : List (κ × α)) (k : κ) : Option α :=
  (m.find? (fun p => p.1 == k)).map Prod.snd

/-- Python dictionary assignment `d[k] = v`: replace in place if the key
is already bound, append otherwise. -/
def dictInsert [BEq κ] (k : κ) (v : α) : List (κ × α) → List (κ × α)
  | [] => [(k, v)]
  | (k0, v0) :: rest =>
      if k0 == k then (k, v) :: rest else (k0, v0) :: dictInsert k v rest

/-- The statistics triple stored for one reduced sample list
(postprocessing_system.py lines 199-204 and 233-239). -/
structure FieldSample where
  max : ℚ
  min : ℚ
  mean : ℚ
deriving Repr, DecidableEq

/-- The reduction applied to one raw numeric sample list: the expression
triple `max(values) if values else 0`, `min(values) if values else 0`,
`np.mean(values) if values else 0`, duplicated verbatim at lines 201-203
(field data) and 236-238 (history data).  Python's `max` and `min` of a
non-empty list are left folds of the binary operations over the tail
starting from the head; `np.mean` is the arithmetic mean. -/
def reduceSamples (xs : List ℚ) : FieldSample :=
  match xs with
  | [] => ⟨0, 0, 0⟩
  | x :: rest => ⟨rest.foldl max x, rest.foldl min x, xs.sum / (xs.length : ℚ)⟩

/-- One per-node value object inside a raw field output: the code
accesses `value.data[component]` as a mapping from component name to a
number (lines 197-198). -/
structure RawValue where
  data : List (String × ℚ)
deriving Repr, DecidableEq

/-- One raw field output: `frame.fieldOutputs[field_type]` with its
`values` list (lines 193-198). -/
structure RawFieldOutput where
  values : List RawValue
deriving Repr, DecidableEq

/-- One raw frame: frame value (time) and its field outputs mapping
(lines 187-207). -/
structure RawFrame where
  frameValue : ℚ
  fieldOutputs : List (String × RawFieldOutput)
deriving Repr, DecidableEq

/-- One raw history data point, with fields `data.time` and `data.data`
(lines 230-231). -/
structure HistPoint where
  time : ℚ
  data : ℚ
deriving Repr, DecidableEq

/-- One raw history output: `history_region.historyOutputs[output_name]`
with its `data` point list (lines 227-231). -/
structure RawHistOutput where
  data : List HistPoint
deriving Repr, DecidableEq

/-- One raw history region: `step.historyRegions[history_name]`
(lines 224-228). -/
structure RawHistRegion where
  historyOutputs : List (String × RawHistOutput)
deriving Repr, DecidableEq

/-- One raw step of the ODB: its frame list and history regions
(lines 180-184 and 219-224). -/
structure RawStep where
  frames : List RawFrame
  historyRegions : List (String × RawHistRegion)
deriving Repr, DecidableEq

/-- The component entry stored at
`frame_data[field_type][component]` (lines 199-204): the raw values list
together with the flat `max` / `min` / `mean` keys, grouped here as one
`FieldSample`. -/
structure CompEntry where
  values : List ℚ
  sample : FieldSample
deriving Repr, DecidableEq

/-- One frame's extracted dictionary `frame_data` (lines 188-207): the
`time` key (line 206) and one inner dictionary per extracted field
type. -/
structure FrameSnapshot where
  time : ℚ
  fields : List (String × List (String × CompEntry))
deriving Repr, DecidableEq

/-- List comprehension
`[value.data[component] for value in field_output.values]` (line 198):
`none` models the `KeyError` raised when some value lacks the
component. -/
def collectValues : List RawValue → String → Option (List ℚ)
  | [], _ => some []
  | v :: vs, component =>
      match pyLookup v.data component, collectValues vs component with
      | some x, some xs => some (x :: xs)
      | _, _ => none

/-- Extraction of one requested component from one present field output
(lines 196-204).  Presence is decided by the membership test
`component in field_output.values[0].data`: evaluating `values[0]` on an
empty values list raises an `IndexError`, an absent component skips the
component (`.ok none`), and a present component reduces the collected
per-value samples (where a value missing the component raises a
`KeyError`). -/
def extractComponent (fo : RawFieldOutput) (component : String) :
    Except String (Option CompEntry) :=
  match fo.values with
  | [] => .error "IndexError: list index out of range"
  | v0 :: _ =>
      match pyLookup v0.data component with
      | none => .ok none
      | some _ =>
          match collectValues fo.values component with
          | none => .error "KeyError"
          | some vals => .ok (some ⟨vals, reduceSamples vals⟩)

/-- The inner component loop of `_extract_field_data` (lines 196-204),
accumulating into the dictionary `frame_data[field_type]`. -/
def extractFieldTypeGo (fo : RawFieldOutput) :
    List String → List (String × CompEntry) →
    Except String (List (String × CompEntry))
  | [], acc => .ok acc
  | c :: cs, acc =>
      match extractComponent fo c with
      | .error e => .error e
      | .ok none => extractFieldTypeGo fo cs acc
      | .ok (some entry) => extractFieldTypeGo fo cs (dictInsert c entry acc)

/-- Extraction of all requested components of one present field type,
starting from the empty dictionary assigned at line 194. -/
def extractFieldType (fo : RawFieldOutput) (components : List String) :
    Except String (List (String × CompEntry)) :=
  extractFieldTypeGo fo components []

/-- The field-type loop of `_extract_field_data` (lines 191-204): each
requested field type present in the frame's raw field outputs
contributes one inner dictionary; absent field types are skipped. -/
def extractFrameFieldsGo (frame : RawFrame) :
    List (String × List String) →
    List (String × List (String × CompEntry)) →
    Except String (List (String × List (String × CompEntry)))
  | [], acc => .ok acc
  | (ft, comps) :: rest, acc =>
      match pyLookup frame.fieldOutputs ft with
      | none => extractFrameFieldsGo frame rest acc
      | some fo =>
          match extractFieldType fo comps with
          | .error e => .error e
          | .ok inner => extractFrameFieldsGo frame rest (dictInsert ft inner acc)

/-- Extraction of one frame's snapshot (lines 188-207): the field-type
loop over the configured `field_outputs`, then the `time` key. -/
def extractFrameFields (cfg : List (String × List String))
    (frame : RawFrame) : Except String FrameSnapshot :=
  match extractFrameFieldsGo frame cfg [] with
  | .error e => .error e
  | .ok fields => .ok ⟨frame.frameValue, fields⟩

/-- The frame loop of `_extract_field_data` (lines 187-207),
accumulating `field_data[step_name][frame.frameValue] = frame_data`. -/
def extractStepFramesGo (cfg : List (String × List String)) :
    List RawFrame → List (ℚ × FrameSnapshot) →
    Except String (List (ℚ × FrameSnapshot))
  | [], acc => .ok acc
  | fr :: rest, acc =>
      match extractFrameFields cfg fr with
      | .error e => .error e
      | .ok snap =>
          extractStepFramesGo cfg rest (dictInsert fr.frameValue snap acc)

/-- Per-step field data: a dictionary keyed by frame time. -/
abbrev StepFieldData := List (ℚ × FrameSnapshot)

/-- The full extracted field data: map from step name to per-step
frame dictionary. -/
abbrev FieldData := List (String × StepFieldData)

/-- The step loop of `_extract_field_data` (lines 179-209). -/
def extractFieldDataGo (cfg : List (String × List String)) :
    List (String × RawStep) → FieldData → Except String FieldData
  | [], acc => .ok acc
  | (name, st) :: rest, acc =>
      match extractStepFramesGo cfg st.frames [] with
      | .error e => .error e
      | .ok stepData => extractFieldDataGo cfg rest (dictInsert name stepData acc)

/-- `_extract_field_data` (lines 169-209), as a function of the
configured `field_outputs` mapping and the ODB's step dictionary. -/
def extractFieldData (cfg : List (String × List String))
    (steps : List (String × RawStep)) : Except String FieldData :=
  extractFieldDataGo cfg steps []

/-- One extracted history series (lines 233-239): `times`, `values`, and
the flat `max` / `min` / `mean` keys grouped as one `FieldSample`. -/
structure HistorySeries where
  times : List ℚ
  values : List ℚ
  sample : FieldSample
deriving Repr, DecidableEq

/-- The history-output loop of `_extract_history_data` for one step
(lines 223-239): each configured (history name, output name) pair whose
region and output both exist contributes one series built from the raw
point list. -/
def extractHistoryStepGo (st : RawStep) :
    List (String × String) → List (String × HistorySeries) →
    List (String × HistorySeries)
  | [], acc => acc
  | (history_name, output_name) :: rest, acc =>
      match pyLookup st.historyRegions history_name with
      | none => extractHistoryStepGo st rest acc
      | some region =>
          match pyLookup region.historyOutputs output_name with
          | none => extractHistoryStepGo st rest acc
          | some ho =>
              let times := ho.data.map HistPoint.time
              let values := ho.data.map HistPoint.data
              extractHistoryStepGo st rest
                (dictInsert history_name ⟨times, values, reduceSamples values⟩ acc)

/-- Per-step history extraction, starting from the empty dictionary
assigned at line 220. -/
def extractHistoryStep (hcfg : List (String × String)) (st : RawStep) :
    List (String × HistorySeries) :=
  extractHistoryStepGo st hcfg []

/-- The step loop of `_extract_history_data` (lines 218-241). -/
def extractHistoryDataGo (hcfg : List (String × String)) :
    List (String × RawStep) → List (String × List (String × HistorySeries)) →
    List (String × List (String × HistorySeries))
  | [], acc => acc
  | (name, st) :: rest, acc =>
      extractHistoryDataGo hcfg rest (dictInsert name (extractHistoryStep hcfg st) acc)

/-- `_extract_history_data` (lines 211-241), as a function of the
configured `history_outputs` mapping and the ODB's step dictionary. -/
def extractHistoryData (hcfg : List (String × String))
    (steps : List (String × RawStep)) :
    List (String × List (String × HistorySeries)) :=
  extractHistoryDataGo hcfg steps []

/-- The accumulator fold shared by `PostProcessingResults.get_max_stress`
(lines 693-702) and `get_max_strain` (lines 704-713): both walk every
step and frame, and for the named field type fold `max` of each
component's stored `max` into an accumulator initialised to `0`; the
two methods differ only in the field-type name. -/
def fieldMaxFold (ft : String) (fd : FieldData) : ℚ :=
  fd.foldl
    (fun acc st =>
      st.2.foldl
        (fun acc2 fr =>
          match pyLookup fr.2.fields ft with
          | some comps => comps.foldl (fun a ce => max a ce.2.sample.max) acc2
          | none => acc2)
        acc)
    0

/-- `PostProcessingResults.get_max_stress` (lines 693-702). -/
def get_max_stress (fd : FieldData) : ℚ := fieldMaxFold "stress" fd

/-- `PostProcessingResults.get_max_strain` (lines 704-713). -/
def get_max_strain (fd : FieldData) : ℚ := fieldMaxFold "strain" fd

/-- Specification-side collection for one frame: the stored `max` of
every component of the named field type, empty when the field type is
absent from the frame's snapshot. -/
def frameMaxes (ft : String) (fr : ℚ × FrameSnapshot) : List ℚ :=
  match pyLookup fr.2.fields ft with
  | some comps => comps.map (fun ce => ce.2.sample.max)
  | none => []

/-- Specification-side collection: every stored `max` of the named field
type across all steps, frames and components, in traversal order. -/
def fieldMaxes (ft : String) (fd : FieldData) : List ℚ :=
  fd.flatMap (fun st => st.2.flatMap (frameMaxes ft))

/-- The statistics dictionary of `get_summary_statistics`
(lines 715-724); `processing_time` is the attribute initialised to `0`
at line 691. -/
structure SummaryStatistics where
  num_steps : ℕ
  max_stress : ℚ
  max_strain : ℚ
  total_frames : ℕ
  processing_time : ℚ
deriving Repr, DecidableEq

/-- `PostProcessingResults.get_summary_statistics` (lines 715-724). -/
def get_summary_statistics (fd : FieldData) : SummaryStatistics :=
  { num_steps := fd.length
    max_stress := get_max_stress fd
    max_strain := get_max_strain fd
    total_frames := (fd.map (fun st => st.2.length)).sum
    processing_time := 0 }

/-- Concrete field configuration requesting the `S11` component of the
`stress` field type, for evaluating the extraction on concrete raw
data. -/
def sampleFieldCfg : List (String × List String) := [("stress", ["S11"])]

/-- Concrete raw frame carrying two nodal values for the stress `S11`
component. -/
def sampleRawFrame : RawFrame :=
  ⟨0, [("stress", ⟨[⟨[("S11", 3)]⟩, ⟨[("S11", 5)]⟩]⟩)]⟩

/-- Concrete raw frame whose `stress` field output has an empty values
list. -/
def emptyValuesFrame : RawFrame := ⟨0, [("stress", ⟨[]⟩)]⟩

/-- Concrete raw step dictionary with one step of one frame, for
evaluating the extraction pipeline end to end. -/
def sampleSteps : List (String × RawStep) :=
  [("Step-1", ⟨[sampleRawFrame],
    [("kinetic_energy", ⟨[("KE", ⟨[⟨0, 10⟩, ⟨1, 20⟩]⟩)]⟩)]⟩)]

/-- Concrete history configuration mapping the logical channel
`kinetic_energy` to the raw channel `KE`. -/
def sampleHistCfg : List (String × String) := [("kinetic_energy", "KE")]

/-- Concrete extracted field data with one stress and one strain
component, for evaluating the report aggregator. -/
def sampleFieldDataOut : FieldData :=
  [("Step-1", [(0, ⟨0,
    [("stress", [("S11", ⟨[3, 5], ⟨5, 3, 4⟩⟩)]),
     ("strain", [("E11", ⟨[2], ⟨2, 2, 2⟩⟩)])]⟩)])]

/-- Concrete extracted field data whose only stress component has a
negative stored maximum. -/
def negStressFieldData : FieldData :=
  [("Step-1", [(0, ⟨0, [("stress", [("S11", ⟨[-5], ⟨-5, -5, -5⟩⟩)])]⟩)])]

/-- Decidable well-formedness of a frame with respect to a field
configuration: every requested field output present in the frame has at
least one value, and any requested component present in the first
value's data is present in every value's data.  This is the precondition
under which the extraction's error branches are unreachable. -/
def framePrecondB (cfg : List (String × List String)) (frame : RawFrame) : Bool :=
  cfg.all (fun p =>
    match pyLookup frame.fieldOutputs p.1 with
    | none => true
    | some fo =>
        match fo.values with
        | [] => false
        | v0 :: _ =>
            p.2.all (fun c =>
              !(pyLookup v0.data c).isSome ||
                fo.values.all (fun v => (pyLookup v.data c).isSome)))

end PostProcessing

/-! Helper lemmas about left folds of `min` and `max`, Python's list
`min` / `max`, and the association-list dictionary operations. -/

theorem foldl_min_le_init (l : List ℚ) (a : ℚ) : l.foldl min a ≤ a := by
  induction l generalizing a with
  | nil => exact le_refl a
  | cons x xs ih => exact le_trans (ih (min a x)) (min_le_left a x)

theorem foldl_min_le_mem (l : List ℚ) (a : ℚ) : ∀ x ∈ l, l.foldl min a ≤ x := by
  induction l generalizing a with
  | nil => intro x hx; cases hx
  | cons y ys ih =>
      intro x hx
      rcases List.mem_cons.mp hx with h | h
      · subst h
        exact le_trans (foldl_min_le_init ys (min a x)) (min_le_right a x)
      · exact ih (min a y) x h

theorem foldl_min_eq_or_mem (l : List ℚ) (a : ℚ) :
    l.foldl min a = a ∨ l.foldl min a ∈ l := by
  induction l generalizing a with
  | nil => left; rfl
  | cons y ys ih =>
      rcases ih (min a y) with h | h
      · rcases min_choice a y with h2 | h2
        · left; rw [List.foldl_cons, h, h2]
        · right; rw [List.foldl_cons, h, h2]; exact List.mem_cons_self y ys
      · right; exact List.mem_cons_of_mem y h

theorem init_le_foldl_max (l : List ℚ) (a : ℚ) : a ≤ l.foldl max a := by
  induction l generalizing a with
  | nil => exact le_refl a
  | cons x xs ih => exact le_trans (le_max_left a x) (ih (max a x))

theorem mem_le_foldl_max (l : List ℚ) (a : ℚ) : ∀ x ∈ l, x ≤ l.foldl max a := by
  induction l generalizing a with
  | nil => intro x hx; cases hx
  | cons y ys ih =>
      intro x hx
      rcases List.mem_cons.mp hx with h | h
      · subst h
        exact le_trans (le_max_right a x) (init_le_foldl_max ys (max a x))
      · exact ih (max a y) x h

theorem foldl_max_eq_or_mem (l : List ℚ) (a : ℚ) :
    l.foldl max a = a ∨ l.foldl max a ∈ l := by
  induction l generalizing a with
  | nil => left; rfl
  | cons y ys ih =>
      rcases ih (max a y) with h | h
      · rcases max_choice a y with h2 | h2
        · left; rw [List.foldl_cons, h, h2]
        · right; rw [List.foldl_cons, h, h2]; exact List.mem_cons_self y ys
      · right; exact List.mem_cons_of_mem y h

theorem foldl_max_flatMap {α : Type} (f : α → List ℚ) (l : List α) (a : ℚ) :
    l.foldl (fun acc x => (f x).foldl max acc) a = (l.flatMap f).foldl max a := by
  induction l generalizing a with
  | nil => rfl
  | cons x xs ih =>
      rw [List.foldl_cons, List.flatMap_cons, List.foldl_append, ih]

theorem mem_dictInsert {κ α : Type} [BEq κ] (k : κ) (v : α) :
    ∀ (m : List (κ × α)) (p : κ × α),
      p ∈ PostProcessing.dictInsert k v m → p = (k, v) ∨ p ∈ m := by
  intro m
  induction m with
  | nil =>
      intro p h
      simp only [PostProcessing.dictInsert, List.mem_singleton] at h
      exact Or.inl h
  | cons q rest ih =>
      intro p h
      obtain ⟨k0, v0⟩ := q
      by_cases hb : (k0 == k) = true
      · simp only [PostProcessing.dictInsert, hb, if_true, List.mem_cons] at h
        rcases h with h | h
        · exact Or.inl h
        · exact Or.inr (List.mem_cons_of_mem _ h)
      · simp only [PostProcessing.dictInsert, hb, if_false, Bool.false_eq_true,
          List.mem_cons] at h
        rcases h with h | h
        · exact Or.inr (by simp [h])
        · rcases ih p h with h2 | h2
          · exact Or.inl h2
          · exact Or.inr (List.mem_cons_of_mem _ h2)

theorem pyLookup_dictInsert_self {κ α : Type} [BEq κ] [LawfulBEq κ]
    (k : κ) (v : α) (m : List (κ × α)) :
    PostProcessing.pyLookup (PostProcessing.dictInsert k v m) k = some v := by
  induction m with
  | nil => simp [PostProcessing.pyLookup, PostProcessing.dictInsert]
  | cons q rest ih =>
      obtain ⟨k0, v0⟩ := q
      by_cases hb : (k0 == k) = true
      · simp [PostProcessing.dictInsert, hb, PostProcessing.pyLookup]
      · simp only [PostProcessing.dictInsert, hb, if_false, Bool.false_eq_true]
        simpa [PostProcessing.pyLookup, List.find?_cons, hb] using ih

theorem pyLookup_dictInsert_ne {κ α : Type} [BEq κ] [LawfulBEq κ]
    (k k' : κ) (v : α) (m : List (κ × α)) (hne : (k' == k) = false) :
    PostProcessing.pyLookup (PostProcessing.dictInsert k' v m) k =
      PostProcessing.pyLookup m k := by
  induction m with
  | nil => simp [PostProcessing.pyLookup, PostProcessing.dictInsert, hne]
  | cons q rest ih =>
      obtain ⟨k0, v0⟩ := q
      by_cases hb : (k0 == k') = true
      · have hk0 : k0 = k' := eq_of_beq hb
        subst hk0
        simp [PostProcessing.dictInsert, PostProcessing.pyLookup, hne]
      · simp only [PostProcessing.dictInsert, hb, if_false, Bool.false_eq_true]
        by_cases hk : (k0 == k) = true
        · simp [PostProcessing.pyLookup, List.find?_cons, hk]
        · simpa [PostProcessing.pyLookup, List.find?_cons, hk] using ih

open SpallFracture PostProcessing

/-! Characterisation helpers for the threshold analyzer. -/

theorem analyze_ok_fields (velocities : List ℚ) (records : List RunOutcome)
    (r : RunOutcome) (rs : List RunOutcome)
    (h : records.filter RunOutcome.isCompleted = r :: rs) :
    ∃ s, analyze velocities records = .ok s ∧
      s.critical_velocity = pyMin (fractureVelocities records) ∧
      s.total_velocities = velocities.length ∧
      s.successful_calculations = (r :: rs).length ∧
      s.failed_calculations = records.length - (r :: rs).length := by
  rw [analyze, h]
  refine ⟨_, rfl, ?_, rfl, rfl, rfl⟩
  show pyMin (((r :: rs).filter RunOutcome.fractureOccurred).map RunOutcome.velocity) = _
  simp only [fractureVelocities, h]

theorem fractureVelocities_subset_velocities (records : List RunOutcome) :
    ∀ x ∈ fractureVelocities records, x ∈ records.map RunOutcome.velocity := by
  intro x hx
  simp only [fractureVelocities, List.mem_map, List.mem_filter] at hx
  obtain ⟨r, ⟨⟨hr, _⟩, _⟩, hv⟩ := hx
  exact List.mem_map.mpr ⟨r, hr, hv⟩

/-- C1: for every record sequence whose fracture set (completed records
with `fracture_occurred` true) is non-empty, `analyze` succeeds and its
`critical_velocity` is the minimum velocity of the fracture set and a
member of the record sequence's velocities; when the fracture set is
empty, any successful `analyze` result has an absent
`critical_velocity`. -/
theorem analyze_critical_velocity_spec (velocities : List ℚ)
    (records : List RunOutcome) :
    (fractureVelocities records ≠ [] →
      ∃ s m, analyze velocities records = .ok s ∧
        s.critical_velocity = some m ∧
        m ∈ fractureVelocities records ∧
        (∀ x ∈ fractureVelocities records, m ≤ x) ∧
        m ∈ records.map RunOutcome.velocity) ∧
    (fractureVelocities records = [] →
      ∀ s, analyze velocities records = .ok s → s.critical_velocity = none) := by
  rcases h : records.filter RunOutcome.isCompleted with _ | ⟨r, rs⟩
  · have hfv : fractureVelocities records = [] := by
      simp [fractureVelocities, h]
    refine ⟨fun hne => absurd hfv hne, fun _ s hs => ?_⟩
    rw [analyze, h] at hs
    exact absurd hs (by simp [analyzeAux])
  · obtain ⟨s, hok, hcrit, _, _, _⟩ := analyze_ok_fields velocities records r rs h
    constructor
    · intro hne
      rcases hfv : fractureVelocities records with _ | ⟨y, ys⟩
      · exact absurd hfv hne
      · have hmem0 : ys.foldl min y ∈ y :: ys := by
          rcases foldl_min_eq_or_mem ys y with h2 | h2
          · rw [h2]; exact List.mem_cons_self y ys
          · exact List.mem_cons_of_mem y h2
        have hmem : ys.foldl min y ∈ fractureVelocities records := by
          rw [hfv]; exact hmem0
        refine ⟨s, ys.foldl min y, hok, ?_, hmem0, ?_, ?_⟩
        · rw [hcrit, hfv]; rfl
        · intro x hx
          rcases List.mem_cons.mp hx with h2 | h2
          · exact h2 ▸ foldl_min_le_init ys y
          · exact foldl_min_le_mem ys y x h2
        · exact fractureVelocities_subset_velocities records _ hmem
    · intro hfv0 s' hs'
      have hss : s' = s := by
        rw [hok] at hs'
        exact (Except.ok.injEq _ _).mp hs'.symm
      rw [hss, hcrit, hfv0]
      rfl

/-- Witness for C1 at the repository's example scenario: records at
velocities 100 (no fracture), 250 and 300 (fracture); the critical
velocity is 250 and appears among the record velocities. -/
theorem analyze_critical_velocity_spec_witness :
    ∃ s m,
      analyze [100, 250, 300]
        [RunOutcome.completed 100 110 (1/100) 120 false "SpallJob",
         RunOutcome.completed 250 125 (1/100) 120 true "SpallJob",
         RunOutcome.completed 300 130 (1/100) 120 true "SpallJob"] = .ok s ∧
      s.critical_velocity = some m ∧
      m ∈ fractureVelocities
        [RunOutcome.completed 100 110 (1/100) 120 false "SpallJob",
         RunOutcome.completed 250 125 (1/100) 120 true "SpallJob",
         RunOutcome.completed 300 130 (1/100) 120 true "SpallJob"] ∧
      (∀ x ∈ fractureVelocities
        [RunOutcome.completed 100 110 (1/100) 120 false "SpallJob",
         RunOutcome.completed 250 125 (1/100) 120 true "SpallJob",
         RunOutcome.completed 300 130 (1/100) 120 true "SpallJob"], m ≤ x) ∧
      m ∈ ([RunOutcome.completed 100 110 (1/100) 120 false "SpallJob",
         RunOutcome.completed 250 125 (1/100) 120 true "SpallJob",
         RunOutcome.completed 300 130 (1/100) 120 true "SpallJob"].map
           RunOutcome.velocity) :=
  (analyze_critical_velocity_spec [100, 250, 300]
    [RunOutcome.completed 100 110 (1/100) 120 false "SpallJob",
     RunOutcome.completed 250 125 (1/100) 120 true "SpallJob",
     RunOutcome.completed 300 130 (1/100) 120 true "SpallJob"]).1 (by decide)

/-- C7: for every record sequence with at least one completed record
(and the class invariant that one record exists per requested velocity,
so the stored velocity list and record list have equal length), the
summary's `total_velocities` is the record count, its
`successful_calculations` the completed-record count, and its
`failed_calculations` their difference. -/
theorem analyze_counts_spec (velocities : List ℚ) (records : List RunOutcome)
    (hlen : velocities.length = records.length)
    (hc : records.filter RunOutcome.isCompleted ≠ []) :
    ∃ s, analyze velocities records = .ok s ∧
      s.total_velocities = records.length ∧
      s.successful_calculations = (records.filter RunOutcome.isCompleted).length ∧
      s.failed_calculations =
        records.length - (records.filter RunOutcome.isCompleted).length := by
  rcases h : records.filter RunOutcome.isCompleted with _ | ⟨r, rs⟩
  · exact absurd h hc
  · obtain ⟨s, hok, _, htot, hsucc, hfail⟩ := analyze_ok_fields velocities records r rs h
    refine ⟨s, hok, ?_, ?_, ?_⟩
    · rw [htot, hlen]
    · exact hsucc
    · exact hfail

/-- Witness for C7: two records, one completed and one failed. -/
theorem analyze_counts_spec_witness :
    ∃ s, analyze [100, 150]
        [RunOutcome.completed 100 110 (1/100) 120 false "SpallJob",
         RunOutcome.failed 150 "mesh generation error"] = .ok s ∧
      s.total_velocities = 2 ∧
      s.successful_calculations = 1 ∧
      s.failed_calculations = 1 := by
  obtain ⟨s, hok, h1, h2, h3⟩ := analyze_counts_spec [100, 150]
    [RunOutcome.completed 100 110 (1/100) 120 false "SpallJob",
     RunOutcome.failed 150 "mesh generation error"] (by decide) (by decide)
  refine ⟨s, hok, ?_, ?_, ?_⟩
  · simpa using h1
  · simpa using h2
  · simpa using h3

/-- C3 counterexample: `analyze` invoked on a record list with zero
completed records does not return a summary state carrying derived
counts — it returns the bare error dictionary of line 562, which has no
count fields at all. -/
theorem analyze_nodata_counterexample :
    analyze [150] [RunOutcome.failed 150 "mesh generation error"] =
      .error "Нет успешных результатов для анализа" := by rfl

/-- C3 (amended): when `analyze` is invoked on records containing zero
completed records it returns, without raising, an error value that
carries only the fixed error message — no counts and no critical
velocity are derived. -/
theorem analyze_nodata_error_value (velocities : List ℚ)
    (records : List RunOutcome)
    (h : records.filter RunOutcome.isCompleted = []) :
    analyze velocities records = .error "Нет успешных результатов для анализа" := by
  rw [analyze, h]; rfl

/-- Witness for the amended C3 at an empty record list. -/
theorem analyze_nodata_error_value_witness :
    analyze [100] [] = .error "Нет успешных результатов для анализа" :=
  analyze_nodata_error_value [100] [] (by decide)

/-- C2: the sweep produces exactly one outcome record per requested
velocity, in input order, with matching velocity fields; a velocity
whose oracle call signals a failure is recorded as a failed record
carrying the failure's message, and every other requested velocity
still receives its own record. -/
theorem sweep_records_match_velocities
    (oracle : ℚ → Except String OracleMetrics) (velocities : List ℚ)
    (_hne : velocities ≠ []) :
    (runAnalysis oracle velocities).length = velocities.length ∧
    ∀ (i : ℕ) (v : ℚ), velocities[i]? = some v →
      (runAnalysis oracle velocities)[i]? = some (runOne oracle v) ∧
      (runOne oracle v).velocity = v ∧
      (∀ e, oracle v = .error e → runOne oracle v = .failed v e) := by
  refine ⟨by simp [runAnalysis], ?_⟩
  intro i v hv
  refine ⟨?_, ?_, ?_⟩
  · simp [runAnalysis, hv]
  · cases ho : oracle v <;> simp [runOne, ho, RunOutcome.velocity]
  · intro e he
    simp [runOne, he]

/-- Witness for C2 on the two-velocity sweep where velocity 150 fails. -/
theorem sweep_records_match_velocities_witness :
    (runAnalysis sampleOracle [100, 150]).length = 2 ∧
    (runAnalysis sampleOracle [100, 150])[1]? =
      some (RunOutcome.failed 150 "mesh generation error") := by
  have h := sweep_records_match_velocities sampleOracle [100, 150] (by decide)
  refine ⟨by simpa using h.1, ?_⟩
  have h2 := (h.2 1 150 (by decide)).1
  rw [h2]
  decide

/-- C8 counterexample: the persistence directory is derived from
`int(velocity)`, so the two distinct velocities 100.2 and 100.7 are
persisted under the same directory; moreover a failed outcome is never
handed to the persistence collaborator at all, so not every produced
record is persisted. -/
theorem save_dir_collision_counterexample :
    (mkRat 1002 10 : ℚ) ≠ mkRat 1007 10 ∧
    velocityDirName "out" (mkRat 1002 10) = velocityDirName "out" (mkRat 1007 10) ∧
    (runAnalysisWithSaves (fun _ => .error "mesh generation error") "out"
        [150]).1.length = 1 ∧
    (runAnalysisWithSaves (fun _ => .error "mesh generation error") "out"
        [150]).2 = [] := by
  refine ⟨by decide, by decide, by decide, by decide⟩

/-- C8 (amended): the records produced by the sweep are those of the
pure sweep loop, and the persisted documents are exactly the completed
records, each persisted (immediately, in sweep order) under
`<outputDir>/velocity_<int(v)>` for its velocity `v`; failed records
are not persisted, and velocities sharing an integer truncation share a
directory. -/
theorem sweep_saves_completed_records
    (oracle : ℚ → Except String OracleMetrics) (output_dir : String)
    (velocities : List ℚ) :
    (runAnalysisWithSaves oracle output_dir velocities).1 =
      runAnalysis oracle velocities ∧
    (runAnalysisWithSaves oracle output_dir velocities).2 =
      ((runAnalysis oracle velocities).filter RunOutcome.isCompleted).map
        (fun r => (velocityDirName output_dir r.velocity, r)) := by
  induction velocities with
  | nil => exact ⟨rfl, rfl⟩
  | cons v rest ih =>
      rcases ho : oracle v with e | m
      · constructor
        · simp [runAnalysisWithSaves, runAnalysis, runOne, ho, List.map_cons]
          simpa [runAnalysis] using ih.1
        · simp [runAnalysisWithSaves, runAnalysis, runOne, ho, List.map_cons,
            List.filter_cons, RunOutcome.isCompleted]
          simpa [runAnalysis] using ih.2
      · constructor
        · simp [runAnalysisWithSaves, runAnalysis, runOne, ho, List.map_cons]
          simpa [runAnalysis] using ih.1
        · simp [runAnalysisWithSaves, runAnalysis, runOne, ho, List.map_cons,
            List.filter_cons, RunOutcome.isCompleted, RunOutcome.velocity]
          simpa [runAnalysis] using ih.2

/-! Flattening the nested accumulator folds of the report aggregator. -/

theorem frame_fold_eq (ft : String) (fr : ℚ × FrameSnapshot) (acc : ℚ) :
    (match pyLookup fr.2.fields ft with
     | some comps => comps.foldl (fun a ce => max a ce.2.sample.max) acc
     | none => acc) = (frameMaxes ft fr).foldl max acc := by
  cases h : pyLookup fr.2.fields ft <;>
    simp [frameMaxes, h, List.foldl_map]

theorem step_fold_eq (ft : String) (frames : StepFieldData) :
    ∀ acc : ℚ,
      frames.foldl
        (fun acc2 fr =>
          match pyLookup fr.2.fields ft with
          | some comps => comps.foldl (fun a ce => max a ce.2.sample.max) acc2
          | none => acc2) acc =
      (frames.flatMap (frameMaxes ft)).foldl max acc := by
  induction frames with
  | nil => intro acc; rfl
  | cons fr frs ih =>
      intro acc
      rw [List.foldl_cons, frame_fold_eq, ih, List.flatMap_cons, List.foldl_append]

theorem fieldMaxFold_eq (ft : String) (fd : FieldData) :
    fieldMaxFold ft fd = (fieldMaxes ft fd).foldl max 0 := by
  unfold fieldMaxFold fieldMaxes
  generalize (0 : ℚ) = a
  induction fd generalizing a with
  | nil => rfl
  | cons st sts ih =>
      rw [List.foldl_cons, step_fold_eq, ih, List.flatMap_cons, List.foldl_append]

/-- C4 counterexample: an extraction whose only stress component has
stored maximum `-5`; the true maximum of all stress maxima is `-5`, but
`get_max_stress` returns `0` because its accumulator starts at `0`. -/
theorem max_stress_negative_counterexample :
    get_max_stress negStressFieldData = 0 ∧
    fieldMaxes "stress" negStressFieldData = [-5] ∧ ((0 : ℚ) ≠ -5) := by
  refine ⟨by decide, by decide, by decide⟩

/-- C4 (amended): `get_max_stress` equals the maximum of `0` and every
stress-component `FieldSample.max` in the extraction (the fold of `max`
over them starting at `0`), so it bounds every stress maximum from
above, is never negative, equals one of the stored maxima whenever it is
non-zero, and is `0` when no stress field exists anywhere;
`get_max_strain` is analogous, and `get_summary_statistics` exposes
exactly these two aggregates. -/
theorem max_stress_overall_clamped (fd : FieldData) :
    get_max_stress fd = (fieldMaxes "stress" fd).foldl max 0 ∧
    (∀ x ∈ fieldMaxes "stress" fd, x ≤ get_max_stress fd) ∧
    0 ≤ get_max_stress fd ∧
    (get_max_stress fd = 0 ∨ get_max_stress fd ∈ fieldMaxes "stress" fd) ∧
    (fieldMaxes "stress" fd = [] → get_max_stress fd = 0) ∧
    get_max_strain fd = (fieldMaxes "strain" fd).foldl max 0 ∧
    (∀ x ∈ fieldMaxes "strain" fd, x ≤ get_max_strain fd) ∧
    (get_max_strain fd = 0 ∨ get_max_strain fd ∈ fieldMaxes "strain" fd) ∧
    (fieldMaxes "strain" fd = [] → get_max_strain fd = 0) ∧
    (get_summary_statistics fd).max_stress = get_max_stress fd ∧
    (get_summary_statistics fd).max_strain = get_max_strain fd := by
  have hs := fieldMaxFold_eq "stress" fd
  have hn := fieldMaxFold_eq "strain" fd
  refine ⟨hs, ?_, ?_, ?_, ?_, hn, ?_, ?_, ?_, rfl, rfl⟩
  · intro x hx
    rw [get_max_stress, hs]
    exact mem_le_foldl_max _ 0 x hx
  · rw [get_max_stress, hs]
    exact init_le_foldl_max _ 0
  · rw [get_max_stress, hs]
    exact foldl_max_eq_or_mem _ 0
  · intro h
    rw [get_max_stress, hs, h]
    rfl
  · intro x hx
    rw [get_max_strain, hn]
    exact mem_le_foldl_max _ 0 x hx
  · rw [get_max_strain, hn]
    exact foldl_max_eq_or_mem _ 0
  · intro h
    rw [get_max_strain, hn, h]
    rfl

/-- Witness for the amended C4 on concrete extraction data with stress
maxima 5 and strain maxima 2. -/
theorem max_stress_overall_clamped_witness :
    (5 : ℚ) ≤ get_max_stress sampleFieldDataOut ∧
    get_max_stress sampleFieldDataOut = 5 ∧
    (2 : ℚ) ≤ get_max_strain sampleFieldDataOut ∧
    get_max_strain sampleFieldDataOut = 2 := by
  have h := max_stress_overall_clamped sampleFieldDataOut
  exact ⟨h.2.1 5 (by decide), by decide,
    h.2.2.2.2.2.2.1 2 (by decide), by decide⟩

/-- C9: the data-reduction operations are deterministic, state-free
functions of their inputs — two invocations on structurally identical
raw step data and configurations produce structurally identical field
and history extraction results.  (In the embedding both operations are
pure functions: the Python methods read only their arguments and the
configuration and mutate nothing.) -/
theorem extraction_deterministic (fcfg₁ fcfg₂ : List (String × List String))
    (hcfg₁ hcfg₂ : List (String × String))
    (steps₁ steps₂ : List (String × RawStep))
    (hf : fcfg₁ = fcfg₂) (hh : hcfg₁ = hcfg₂) (hs : steps₁ = steps₂) :
    extractFieldData fcfg₁ steps₁ = extractFieldData fcfg₂ steps₂ ∧
    extractHistoryData hcfg₁ steps₁ = extractHistoryData hcfg₂ steps₂ := by
  subst hf
  subst hh
  subst hs
  exact ⟨rfl, rfl⟩

/-- Witness for C9 on the concrete sample configuration and step. -/
theorem extraction_deterministic_witness :
    extractFieldData sampleFieldCfg sampleSteps =
      extractFieldData sampleFieldCfg sampleSteps ∧
    extractHistoryData sampleHistCfg sampleSteps =
      extractHistoryData sampleHistCfg sampleSteps :=
  extraction_deterministic sampleFieldCfg sampleFieldCfg sampleHistCfg
    sampleHistCfg sampleSteps sampleSteps rfl rfl rfl

/-! The reduction engine and its use by the history extraction. -/

theorem extractHistoryStepGo_sample (st : RawStep) :
    ∀ (hcfg : List (String × String)) (acc : List (String × HistorySeries)),
      (∀ p ∈ acc, p.2.sample = reduceSamples p.2.values) →
      ∀ p ∈ extractHistoryStepGo st hcfg acc,
        p.2.sample = reduceSamples p.2.values := by
  intro hcfg
  induction hcfg with
  | nil => intro acc hacc p hp; exact hacc p hp
  | cons q rest ih =>
      intro acc hacc p hp
      obtain ⟨hn, oname⟩ := q
      rcases h1 : pyLookup st.historyRegions hn with _ | region
      · simp only [extractHistoryStepGo, h1] at hp
        exact ih acc hacc p hp
      · rcases h2 : pyLookup region.historyOutputs oname with _ | ho
        · simp only [extractHistoryStepGo, h1, h2] at hp
          exact ih acc hacc p hp
        · simp only [extractHistoryStepGo, h1, h2] at hp
          refine ih _ ?_ p hp
          intro p' hp'
          rcases mem_dictInsert _ _ _ p' hp' with h3 | h3
          · rw [h3]
          · exact hacc p' h3

/-- C5: the sample reduction returns all-zero statistics on the empty
list; on any non-empty list its `max` and `min` are attained members
bounding the list and its `mean` is the arithmetic mean, giving the
required values on `[7]` and `[1, 2, 3]`; and every series produced by
the history extraction carries exactly this reduction of its values. -/
theorem reduce_samples_spec :
    reduceSamples [] = ⟨0, 0, 0⟩ ∧
    reduceSamples [7] = ⟨7, 7, 7⟩ ∧
    reduceSamples [1, 2, 3] = ⟨3, 1, 2⟩ ∧
    (∀ xs : List ℚ, xs ≠ [] →
      (reduceSamples xs).max ∈ xs ∧
      (∀ y ∈ xs, y ≤ (reduceSamples xs).max) ∧
      (reduceSamples xs).min ∈ xs ∧
      (∀ y ∈ xs, (reduceSamples xs).min ≤ y) ∧
      (reduceSamples xs).mean = xs.sum / (xs.length : ℚ)) ∧
    (∀ (hcfg : List (String × String)) (st : RawStep),
      ∀ p ∈ extractHistoryStep hcfg st,
        p.2.sample = reduceSamples p.2.values) := by
  refine ⟨rfl, ?_, ?_, ?_, ?_⟩
  · show (⟨[].foldl max 7, [].foldl min 7, ([7] : List ℚ).sum / 1⟩ : FieldSample) = _
    norm_num
  · show (⟨[2, 3].foldl max 1, [2, 3].foldl min 1,
      ([1, 2, 3] : List ℚ).sum / 3⟩ : FieldSample) = _
    norm_num
  · intro xs hne
    rcases xs with _ | ⟨x, rest⟩
    · exact absurd rfl hne
    · refine ⟨?_, ?_, ?_, ?_, rfl⟩
      · show rest.foldl max x ∈ x :: rest
        rcases foldl_max_eq_or_mem rest x with h | h
        · rw [h]; exact List.mem_cons_self x rest
        · exact List.mem_cons_of_mem x h
      · intro y hy
        show y ≤ rest.foldl max x
        rcases List.mem_cons.mp hy with h | h
        · exact h ▸ init_le_foldl_max rest x
        · exact mem_le_foldl_max rest x y h
      · show rest.foldl min x ∈ x :: rest
        rcases foldl_min_eq_or_mem rest x with h | h
        · rw [h]; exact List.mem_cons_self x rest
        · exact List.mem_cons_of_mem x h
      · intro y hy
        show rest.foldl min x ≤ y
        rcases List.mem_cons.mp hy with h | h
        · exact h ▸ foldl_min_le_init rest x
        · exact foldl_min_le_mem rest x y h
  · intro hcfg st p hp
    refine extractHistoryStepGo_sample st hcfg [] ?_ p hp
    intro p' hp'
    exact absurd hp' (List.not_mem_nil p')

/-- Witness for C5 on the list `[4, 9]` and the sample history step. -/
theorem reduce_samples_spec_witness :
    (reduceSamples [4, 9]).max ∈ ([4, 9] : List ℚ) ∧
    (4 : ℚ) ≤ (reduceSamples [4, 9]).max ∧
    (reduceSamples [4, 9]).mean = (13 : ℚ) / 2 := by
  have h := reduce_samples_spec
  have h4 := h.2.2.2.1 [4, 9] (by decide)
  refine ⟨h4.1, h4.2.1 4 (by decide), ?_⟩
  rw [h4.2.2.2.2]
  norm_num

/-! Behaviour of the field extraction: skipped components, raised
errors, and success under the well-formedness precondition. -/

theorem collectValues_length (c : String) :
    ∀ (vals : List RawValue) (l : List ℚ),
      collectValues vals c = some l → l.length = vals.length := by
  intro vals
  induction vals with
  | nil =>
      intro l h
      simp only [collectValues, Option.some.injEq] at h
      rw [← h]
      rfl
  | cons v vs ih =>
      intro l h
      rcases h1 : pyLookup v.data c with _ | x <;>
        rcases h2 : collectValues vs c with _ | xs <;>
          simp [collectValues, h1, h2] at h
      rw [← h]
      simp [ih xs h2]

theorem collectValues_isSome (c : String) :
    ∀ vals : List RawValue,
      (∀ v ∈ vals, (pyLookup v.data c).isSome = true) →
      ∃ l, collectValues vals c = some l := by
  intro vals
  induction vals with
  | nil => intro _; exact ⟨[], rfl⟩
  | cons v vs ih =>
      intro h
      obtain ⟨x, hx⟩ := Option.isSome_iff_exists.mp (h v (List.mem_cons_self v vs))
      obtain ⟨l, hl⟩ := ih (fun v' hv' => h v' (List.mem_cons_of_mem v hv'))
      exact ⟨x :: l, by simp [collectValues, hx, hl]⟩

theorem extractComponent_empty (fo : RawFieldOutput) (c : String)
    (h : fo.values = []) :
    extractComponent fo c = .error "IndexError: list index out of range" := by
  unfold extractComponent
  rw [h]

theorem extractComponent_skip (fo : RawFieldOutput) (c : String)
    (v0 : RawValue) (vs : List RawValue) (h : fo.values = v0 :: vs)
    (hc : pyLookup v0.data c = none) :
    extractComponent fo c = .ok none := by
  unfold extractComponent
  rw [h]
  simp [hc]

theorem extractComponent_keyerror (fo : RawFieldOutput) (c : String)
    (v0 : RawValue) (vs : List RawValue) (h : fo.values = v0 :: vs)
    (x : ℚ) (hc : pyLookup v0.data c = some x)
    (hcoll : collectValues fo.values c = none) :
    extractComponent fo c = .error "KeyError" := by
  unfold extractComponent
  rw [h] at hcoll ⊢
  simp [hc, hcoll]

theorem extractComponent_collect (fo : RawFieldOutput) (c : String)
    (v0 : RawValue) (vs : List RawValue) (h : fo.values = v0 :: vs)
    (x : ℚ) (hc : pyLookup v0.data c = some x)
    (l : List ℚ) (hcoll : collectValues fo.values c = some l) :
    extractComponent fo c = .ok (some ⟨l, reduceSamples l⟩) := by
  unfold extractComponent
  rw [h] at hcoll ⊢
  simp [hc, hcoll]

theorem extractComponent_some (fo : RawFieldOutput) (c : String)
    (entry : CompEntry) (h : extractComponent fo c = .ok (some entry)) :
    collectValues fo.values c = some entry.values ∧
    entry.sample = reduceSamples entry.values ∧
    entry.values.length = fo.values.length := by
  rcases hv : fo.values with _ | ⟨v0, vs⟩
  · rw [extractComponent_empty fo c hv] at h
    exact absurd h (by simp)
  · rcases h1 : pyLookup v0.data c with _ | x
    · rw [extractComponent_skip fo c v0 vs hv h1] at h
      exact absurd h (by simp)
    · rcases h2 : collectValues (v0 :: vs) c with _ | vals
      · rw [extractComponent_keyerror fo c v0 vs hv x h1 (by rw [hv]; exact h2)] at h
        exact absurd h (by simp)
      · rw [extractComponent_collect fo c v0 vs hv x h1 vals (by rw [hv]; exact h2)] at h
        have he : entry = ⟨vals, reduceSamples vals⟩ := by
          simpa using h.symm
        subst he
        exact ⟨rfl, rfl, collectValues_length c (v0 :: vs) vals h2⟩

theorem extractComponent_first_decides (fo : RawFieldOutput) (c : String)
    (v0 : RawValue) (vs : List RawValue) (h : fo.values = v0 :: vs) :
    extractComponent fo c = .ok none ↔ pyLookup v0.data c = none := by
  constructor
  · intro he
    rcases h1 : pyLookup v0.data c with _ | x
    · rfl
    · exfalso
      rcases h2 : collectValues (v0 :: vs) c with _ | vals
      · rw [extractComponent_keyerror fo c v0 vs h x h1 (by rw [h]; exact h2)] at he
        exact absurd he (by simp)
      · rw [extractComponent_collect fo c v0 vs h x h1 vals (by rw [h]; exact h2)] at he
        exact absurd he (by simp)
  · exact extractComponent_skip fo c v0 vs h

theorem extractFieldTypeGo_error_of_empty (fo : RawFieldOutput)
    (c : String) (cs : List String) (acc : List (String × CompEntry))
    (h : fo.values = []) :
    extractFieldTypeGo fo (c :: cs) acc =
      .error "IndexError: list index out of range" := by
  simp only [extractFieldTypeGo, extractComponent_empty fo c h]

theorem extractFieldTypeGo_ok (fo : RawFieldOutput) (v0 : RawValue)
    (vs : List RawValue) (hv : fo.values = v0 :: vs) :
    ∀ (comps : List String) (acc : List (String × CompEntry)),
      (∀ c ∈ comps, (pyLookup v0.data c).isSome = true →
        ∀ v ∈ fo.values, (pyLookup v.data c).isSome = true) →
      ∃ out, extractFieldTypeGo fo comps acc = .ok out := by
  intro comps
  induction comps with
  | nil => intro acc _; exact ⟨acc, rfl⟩
  | cons c cs ih =>
      intro acc hpre
      rcases h1 : pyLookup v0.data c with _ | x
      · obtain ⟨out, hout⟩ := ih acc (fun c' hc' => hpre c' (List.mem_cons_of_mem c hc'))
        refine ⟨out, ?_⟩
        simp only [extractFieldTypeGo, extractComponent_skip fo c v0 vs hv h1]
        exact hout
      · have hall : ∀ v ∈ fo.values, (pyLookup v.data c).isSome = true :=
          hpre c (List.mem_cons_self c cs) (by rw [h1]; rfl)
        obtain ⟨l, hl⟩ := collectValues_isSome c fo.values hall
        obtain ⟨out, hout⟩ := ih (dictInsert c ⟨l, reduceSamples l⟩ acc)
          (fun c' hc' => hpre c' (List.mem_cons_of_mem c hc'))
        refine ⟨out, ?_⟩
        simp only [extractFieldTypeGo,
          extractComponent_collect fo c v0 vs hv x h1 l hl]
        exact hout

theorem extractFieldTypeGo_mem (fo : RawFieldOutput) :
    ∀ (comps : List String) (acc out : List (String × CompEntry)),
      extractFieldTypeGo fo comps acc = .ok out →
      ∀ p ∈ out, p ∈ acc ∨
        (p.1 ∈ comps ∧ extractComponent fo p.1 = .ok (some p.2)) := by
  intro comps
  induction comps with
  | nil =>
      intro acc out h p hp
      simp only [extractFieldTypeGo, Except.ok.injEq] at h
      subst h
      exact Or.inl hp
  | cons c cs ih =>
      intro acc out h p hp
      rcases hc : extractComponent fo c with e | oe
      · simp [extractFieldTypeGo, hc] at h
      · rcases oe with _ | entry
        · simp only [extractFieldTypeGo, hc] at h
          rcases ih acc out h p hp with h2 | ⟨hm, h3⟩
          · exact Or.inl h2
          · exact Or.inr ⟨List.mem_cons_of_mem c hm, h3⟩
        · simp only [extractFieldTypeGo, hc] at h
          rcases ih _ out h p hp with h2 | ⟨hm, h3⟩
          · rcases mem_dictInsert c entry acc p h2 with h4 | h4
            · refine Or.inr ⟨?_, ?_⟩
              · rw [h4]; exact List.mem_cons_self c cs
              · rw [h4]; exact hc
            · exact Or.inl h4
          · exact Or.inr ⟨List.mem_cons_of_mem c hm, h3⟩

theorem extractFrameFieldsGo_error (frame : RawFrame) (ft c : String)
    (cs : List String) (fo : RawFieldOutput)
    (hfo : pyLookup frame.fieldOutputs ft = some fo)
    (hempty : fo.values = []) :
    ∀ (cfg : List (String × List String))
      (acc : List (String × List (String × CompEntry))),
      (ft, c :: cs) ∈ cfg →
      ∃ e, extractFrameFieldsGo frame cfg acc = .error e := by
  intro cfg
  induction cfg with
  | nil => intro acc h; exact absurd h (List.not_mem_nil _)
  | cons q rest ih =>
      intro acc hmem
      obtain ⟨ft', comps'⟩ := q
      rcases List.mem_cons.mp hmem with heq | hmem'
      · injection heq with h1 h2
        subst h1
        subst h2
        refine ⟨"IndexError: list index out of range", ?_⟩
        simp only [extractFrameFieldsGo, hfo, extractFieldType,
          extractFieldTypeGo_error_of_empty fo c cs [] hempty]
      · rcases h1 : pyLookup frame.fieldOutputs ft' with _ | fo'
        · obtain ⟨e, he⟩ := ih acc hmem'
          refine ⟨e, ?_⟩
          simp only [extractFrameFieldsGo, h1]
          exact he
        · rcases h2 : extractFieldType fo' comps' with e' | inner
          · exact ⟨e', by simp only [extractFrameFieldsGo, h1, h2]⟩
          · obtain ⟨e, he⟩ := ih (dictInsert ft' inner acc) hmem'
            refine ⟨e, ?_⟩
            simp only [extractFrameFieldsGo, h1, h2]
            exact he

theorem extractFrameFieldsGo_ok (frame : RawFrame) :
    ∀ cfg : List (String × List String),
      framePrecondB cfg frame = true →
      ∀ acc, ∃ out, extractFrameFieldsGo frame cfg acc = .ok out := by
  intro cfg
  induction cfg with
  | nil => intro _ acc; exact ⟨acc, rfl⟩
  | cons q rest ih =>
      intro hpre acc
      obtain ⟨ft, comps⟩ := q
      rw [framePrecondB, List.all_cons, Bool.and_eq_true] at hpre
      obtain ⟨hhead, htail⟩ := hpre
      rw [framePrecondB] at ih
      rcases h1 : pyLookup frame.fieldOutputs ft with _ | fo
      · obtain ⟨out, hout⟩ := ih htail acc
        refine ⟨out, ?_⟩
        simp only [extractFrameFieldsGo, h1]
        exact hout
      · simp only [h1] at hhead
        rcases hv : fo.values with _ | ⟨v0, vs⟩
        · rw [hv] at hhead
          simp at hhead
        · rw [hv] at hhead
          simp only [List.all_eq_true] at hhead
          have hcomp : ∀ c ∈ comps, (pyLookup v0.data c).isSome = true →
              ∀ v ∈ fo.values, (pyLookup v.data c).isSome = true := by
            intro c hc hsome v hvv
            have h3 := hhead c hc
            rw [Bool.or_eq_true, Bool.not_eq_true'] at h3
            rcases h3 with h3 | h3
            · rw [hsome] at h3
              cases h3
            · exact List.all_eq_true.mp h3 v (by rw [← hv]; exact hvv)
          obtain ⟨inner, hinner⟩ := extractFieldTypeGo_ok fo v0 vs hv comps [] hcomp
          obtain ⟨out, hout⟩ := ih htail (dictInsert ft inner acc)
          refine ⟨out, ?_⟩
          simp only [extractFrameFieldsGo, h1, extractFieldType, hinner]
          exact hout

theorem extractFrameFieldsGo_absent (frame : RawFrame) (ft : String)
    (habs : pyLookup frame.fieldOutputs ft = none) :
    ∀ (cfg : List (String × List String)) (acc out),
      extractFrameFieldsGo frame cfg acc = .ok out →
      pyLookup acc ft = none → pyLookup out ft = none := by
  intro cfg
  induction cfg with
  | nil =>
      intro acc out h hacc
      simp only [extractFrameFieldsGo, Except.ok.injEq] at h
      rw [← h]
      exact hacc
  | cons q rest ih =>
      intro acc out h hacc
      obtain ⟨ft', comps'⟩ := q
      rcases h1 : pyLookup frame.fieldOutputs ft' with _ | fo'
      · simp only [extractFrameFieldsGo, h1] at h
        exact ih acc out h hacc
      · rcases h2 : extractFieldType fo' comps' with e' | inner
        · simp [extractFrameFieldsGo, h1, h2] at h
        · simp only [extractFrameFieldsGo, h1, h2] at h
          have hne : (ft' == ft) = false := by
            rcases Bool.eq_false_or_eq_true (ft' == ft) with ht | hf
            · exfalso
              rw [eq_of_beq ht, habs] at h1
              cases h1
            · exact hf
          refine ih _ out h ?_
          rw [pyLookup_dictInsert_ne ft ft' inner acc hne]
          exact hacc

/-- C6 counterexample: with `stress`/`S11` requested, a frame whose
`stress` field output is present with an empty values list makes the
extraction raise an `IndexError` — the requested component, absent from
the frame's raw data, is not silently omitted. -/
theorem extraction_absent_error_counterexample :
    extractFrameFields sampleFieldCfg emptyValuesFrame =
      .error "IndexError: list index out of range" := by rfl

/-- C6 (amended): under the precondition that every present requested
field output carries at least one value AND every requested component
present in the first value's data is present in every value's data
(`framePrecondB`), the extraction never synthesizes a sample for an
absent field/component pair: a component absent from the first raw
value is skipped with no error, every emitted component entry belongs
to a requested component and carries exactly the reduction of its
collected raw values (one per raw value), a field type absent from the
frame's raw outputs never appears in the snapshot, and the whole frame
extraction succeeds.  Outside the precondition absence can be an error:
an empty values list raises an IndexError, and a component present in
the first value but missing from a later one raises a KeyError. -/
theorem extraction_omits_absent :
    (∀ (fo : RawFieldOutput) (c : String) (v0 : RawValue) (vs : List RawValue),
      fo.values = v0 :: vs → pyLookup v0.data c = none →
      extractComponent fo c = .ok none) ∧
    (∀ (fo : RawFieldOutput) (comps : List String)
      (inner : List (String × CompEntry)),
      extractFieldType fo comps = .ok inner →
      ∀ p ∈ inner, p.1 ∈ comps ∧ extractComponent fo p.1 = .ok (some p.2)) ∧
    (∀ (fo : RawFieldOutput) (c : String) (entry : CompEntry),
      extractComponent fo c = .ok (some entry) →
      collectValues fo.values c = some entry.values ∧
      entry.sample = reduceSamples entry.values ∧
      entry.values.length = fo.values.length) ∧
    (∀ (cfg : List (String × List String)) (frame : RawFrame)
      (snap : FrameSnapshot) (ft : String),
      extractFrameFields cfg frame = .ok snap →
      pyLookup frame.fieldOutputs ft = none →
      pyLookup snap.fields ft = none) ∧
    (∀ (cfg : List (String × List String)) (frame : RawFrame),
      framePrecondB cfg frame = true →
      ∃ snap, extractFrameFields cfg frame = .ok snap) := by
  refine ⟨extractComponent_skip, ?_, extractComponent_some, ?_, ?_⟩
  · intro fo comps inner h p hp
    rcases extractFieldTypeGo_mem fo comps [] inner h p hp with h2 | h2
    · exact absurd h2 (List.not_mem_nil p)
    · exact h2
  · intro cfg frame snap ft h habs
    unfold extractFrameFields at h
    rcases hg : extractFrameFieldsGo frame cfg [] with e | fields
    · rw [hg] at h
      cases h
    · rw [hg] at h
      have hsnap : snap = ⟨frame.frameValue, fields⟩ := by
        simpa using h.symm
      rw [hsnap]
      exact extractFrameFieldsGo_absent frame ft habs cfg [] fields hg rfl
  · intro cfg frame hpre
    obtain ⟨out, hout⟩ := extractFrameFieldsGo_ok frame cfg hpre []
    refine ⟨⟨frame.frameValue, out⟩, ?_⟩
    unfold extractFrameFields
    rw [hout]

/-- Witness for the amended C6: the sample frame (whose stress output
has two values) extracts successfully, and a component absent from the
first value's data is skipped without an error. -/
theorem extraction_omits_absent_witness :
    (∃ snap, extractFrameFields sampleFieldCfg sampleRawFrame = .ok snap) ∧
    extractComponent ⟨[RawValue.mk [("S22", 1)]]⟩ "S11" = .ok none := by
  have h := extraction_omits_absent
  refine ⟨h.2.2.2.2 sampleFieldCfg sampleRawFrame (by decide), ?_⟩
  exact h.1 ⟨[RawValue.mk [("S22", 1)]]⟩ "S11" (RawValue.mk [("S22", 1)]) []
    rfl (by decide)

/-- C10: the field extraction decides presence of a requested component
by inspecting only the first element of the field output's values list:
a requested component together with a present field output whose values
list is empty makes the whole frame extraction raise an out-of-bounds
error; on a non-empty values list a component is skipped exactly when it
is absent from the first value's data; and under the precondition that
every present requested field output has at least one value and every
component present in the first value is present in all values, the
extraction succeeds. -/
theorem first_element_presence_check :
    (∀ (cfg : List (String × List String)) (frame : RawFrame) (ft c : String)
      (cs : List String) (fo : RawFieldOutput),
      (ft, c :: cs) ∈ cfg → pyLookup frame.fieldOutputs ft = some fo →
      fo.values = [] →
      ∃ e, extractFrameFields cfg frame = .error e) ∧
    (∀ (fo : RawFieldOutput) (c : String) (v0 : RawValue) (vs : List RawValue),
      fo.values = v0 :: vs →
      (extractComponent fo c = .ok none ↔ pyLookup v0.data c = none)) ∧
    (∀ (cfg : List (String × List String)) (frame : RawFrame),
      framePrecondB cfg frame = true →
      (extractFrameFields cfg frame).isOk = true) := by
  refine ⟨?_, extractComponent_first_decides, ?_⟩
  · intro cfg frame ft c cs fo hmem hfo hempty
    obtain ⟨e, he⟩ := extractFrameFieldsGo_error frame ft c cs fo hfo hempty cfg [] hmem
    refine ⟨e, ?_⟩
    unfold extractFrameFields
    rw [he]
  · intro cfg frame hpre
    obtain ⟨out, hout⟩ := extractFrameFieldsGo_ok frame cfg hpre []
    unfold extractFrameFields
    rw [hout]
    rfl

/-- Witness for C10: the empty-values frame errors, the skip test on a
two-value output follows the first value only, and the sample frame
satisfies the precondition and extracts successfully. -/
theorem first_element_presence_check_witness :
    (∃ e, extractFrameFields sampleFieldCfg emptyValuesFrame = .error e) ∧
    extractComponent ⟨[RawValue.mk [("S22", 1)], RawValue.mk []]⟩ "S11" =
      .ok none ∧
    (extractFrameFields sampleFieldCfg sampleRawFrame).isOk = true := by
  have h := first_element_presence_check
  refine ⟨h.1 sampleFieldCfg emptyValuesFrame "stress" "S11" [] ⟨[]⟩
      (by decide) (by decide) rfl, ?_,
    h.2.2 sampleFieldCfg sampleRawFrame (by decide)⟩
  exact (h.2.1 ⟨[RawValue.mk [("S22", 1)], RawValue.mk []]⟩ "S11"
    (RawValue.mk [("S22", 1)]) [RawValue.mk []] rfl).mpr (by decide)
